import Mathlib

/-!
Shallow embedding of the claim-allocation core of the Anya giveaway bot.

The pool-based variants (`giveaway_bot_sqlite.py`, `giveaway_bot_postgres.py`)
share one data model: a `gift_links` table (id, code, status, claimed_by,
claimed_at), a `winners` table (user_id, username, allow_multiple) and an
append-only `audit_log`.  We embed the store as an explicit state record and
each database operation as a pure state transformer translated statement by
statement from the Python/SQL source.  Timestamps are modelled by a logical
clock (their values are never inspected by the logic, only their presence).

The Notion variant (`anya_giveaway_bot_notion.py`) keeps one row per winner
with an explicit link; its `NotionStore.upsert_winner` is embedded separately.
-/

namespace Giveaway

inductive Status
  | new
  | claimed
  | disabled
deriving DecidableEq

structure GiftLink where
  id : Nat
  code : String
  status : Status
  claimed_by : Option String
  claimed_at : Option Nat
deriving DecidableEq

structure Winner where
  user_id : String
  username : Option String
  allow_multiple : Bool
deriving DecidableEq

structure AuditEntry where
  actor_user_id : Option String
  action : String
  metadata : String
deriving DecidableEq

structure Store where
  links : List GiftLink
  winners : List Winner
  audit : List AuditEntry
  nextId : Nat
  clock : Nat
deriving DecidableEq

def emptyStore : Store :=
  { links := [], winners := [], audit := [], nextId := 0, clock := 0 }

/-- Codes currently present in the `gift_links` table, in row order. -/
def codesOf (s : Store) : List String :=
  s.links.map (fun l => l.code)

/-- Lookup of `SELECT allow_multiple FROM winners WHERE user_id = ?`
(first matching row; `user_id` is unique in reachable states). -/
def winnerLookup (ws : List Winner) (uid : String) : Bool × Bool :=
  match ws.find? (fun w => decide (w.user_id = uid)) with
  | none => (false, false)
  | some w => (true, w.allow_multiple)

/-- `is_winner` from the source: `(found, allow_multiple)`. -/
def is_winner (s : Store) (uid : String) : Bool × Bool :=
  winnerLookup s.winners uid

/-- Row count of `SELECT COUNT(*) FROM gift_links WHERE claimed_by = ? AND
status = 'claimed'`. -/
def claimCount (links : List GiftLink) (uid : String) : Nat :=
  (links.filter (fun l => decide (l.claimed_by = some uid ∧ l.status = Status.claimed))).length

/-- `user_claim_count` from the source. -/
def user_claim_count (s : Store) (uid : String) : Nat :=
  claimCount s.links uid

/-- `SELECT id, code FROM gift_links WHERE status = 'new' ORDER BY id ASC
LIMIT 1`: the row of status `new` with the least id, if any. -/
def selectNew : List GiftLink → Option GiftLink
  | [] => none
  | l :: ls =>
    if l.status = Status.new then
      match selectNew ls with
      | none => some l
      | some b => if b.id < l.id then some b else some l
    else selectNew ls

/-- Effect of `UPDATE gift_links SET status='claimed', claimed_by=?,
claimed_at=now WHERE id = ? AND status='new'` on one row. -/
def claimMark (uid : String) (t : Nat) (linkId : Nat) (x : GiftLink) : GiftLink :=
  if x.id = linkId ∧ x.status = Status.new then
    { x with status := Status.claimed, claimed_by := some uid, claimed_at := some t }
  else x

/-- Result of one `claim_one_link` call, tagged by the branch of the source
that produced it: the eligibility guards return early (`notEligible`), an
empty pool rolls back (`noneAvailable`), and a guarded update whose row count
is not 1 returns `None` without an audit row (`raceLost`). -/
inductive ClaimResult
  | success (code : String)
  | notEligible
  | noneAvailable
  | raceLost
deriving DecidableEq

/-- `claim_one_link` from the source (final state of the operation; in the
postgres variant the whole body is one transaction).  The source calls
`is_winner` once and destructures; we re-project the same pure value. -/
def claimStep (s : Store) (uid : String) : Store × ClaimResult :=
  if (is_winner s uid).1 = false then (s, ClaimResult.notEligible)
  else if (is_winner s uid).2 = false ∧ 0 < user_claim_count s uid then
    (s, ClaimResult.notEligible)
  else
    match selectNew s.links with
    | none => (s, ClaimResult.noneAvailable)
    | some l =>
      if (s.links.filter (fun x => decide (x.id = l.id ∧ x.status = Status.new))).length = 1 then
        ({ s with links := s.links.map (claimMark uid s.clock l.id),
                  clock := s.clock + 1,
                  audit := s.audit ++
                    [{ actor_user_id := some uid, action := "CLAIM",
                       metadata := "link_id=" ++ toString l.id }] },
         ClaimResult.success l.code)
      else
        ({ s with links := s.links.map (claimMark uid s.clock l.id),
                  clock := s.clock + 1 },
         ClaimResult.raceLost)

/-- The value actually returned to the caller: `Optional[str]`.  Every
non-success branch of the source returns `None`. -/
def claim_one_link (s : Store) (uid : String) : Store × Option String :=
  match claimStep s uid with
  | (s', ClaimResult.success c) => (s', some c)
  | (s', _) => (s', none)

/-- Whitespace in the sense of Python's `str.strip()` (ASCII subset: space,
tab, newline, carriage return, vertical tab, form feed). -/
def isPySpace (ch : Char) : Bool :=
  decide (ch = ' ' ∨ ch = '\t' ∨ ch = '\n' ∨ ch = '\r' ∨
    ch = Char.ofNat 11 ∨ ch = Char.ofNat 12)

/-- Python's `str.strip()`: drop leading and trailing whitespace. -/
def strip (str : String) : String :=
  ⟨((str.data.dropWhile isPySpace).reverse.dropWhile isPySpace).reverse⟩

/-- Loop body of `add_links`: strip each raw entry, skip empties, insert with
status `new`, skip `IntegrityError` duplicates (the UNIQUE constraint on
`code`), counting the rows actually inserted. -/
def addLoop : Store → List String → Store × Nat
  | s, [] => (s, 0)
  | s, raw :: rest =>
    if strip raw = "" then addLoop s rest
    else if s.links.any (fun l => decide (l.code = strip raw)) then addLoop s rest
    else
      let x : GiftLink :=
        { id := s.nextId, code := strip raw, status := Status.new,
          claimed_by := none, claimed_at := none }
      let r := addLoop { s with links := s.links ++ [x], nextId := s.nextId + 1 } rest
      (r.1, r.2 + 1)

/-- `add_links` from the source: the insertion loop followed by one
`ADD_LINK` audit row recording `count={added}`, all in one transaction. -/
def add_links (s : Store) (codes : List String) (actor : Option String) : Store × Nat :=
  let r := addLoop s codes
  ({ r.1 with audit := r.1.audit ++
      [{ actor_user_id := actor, action := "ADD_LINK",
         metadata := "count=" ++ toString r.2 }] }, r.2)

/-- `add_winner` from the postgres source: insert the winner row and an
`ADD_WINNER` audit row (whose actor column records the new winner's id) in one
transaction; a `UniqueViolationError` on the insert aborts the transaction and
returns `False`.  The uniqueness check is the store's constraint on
`user_id`. -/
def add_winner (s : Store) (uid : String) (username : Option String)
    (allowMultiple : Bool) : Store × Bool :=
  if s.winners.any (fun w => decide (w.user_id = uid)) then (s, false)
  else
    let w : Winner := { user_id := uid, username := username, allow_multiple := allowMultiple }
    let e : AuditEntry :=
      { actor_user_id := some uid, action := "ADD_WINNER",
        metadata := "username=" ++ toString username ++ ",allow_multiple=" ++ toString allowMultiple }
    ({ s with winners := s.winners ++ [w], audit := s.audit ++ [e] }, true)

/-- `disable_link` from the source: `UPDATE gift_links SET status='disabled'
WHERE code = ?` (no status guard, so every row with that code is disabled and
`claimed_by`/`claimed_at` are left as they are); a `DISABLE_LINK` audit row is
written only when the update matched at least one row. -/
def disable_link (s : Store) (code : String) (actor : Option String) : Store × Bool :=
  let links' := s.links.map
    (fun l => if l.code = code then { l with status := Status.disabled } else l)
  let e : AuditEntry :=
    { actor_user_id := actor, action := "DISABLE_LINK", metadata := "code=" ++ code }
  if s.links.any (fun l => decide (l.code = code)) then
    ({ s with links := links', audit := s.audit ++ [e] }, true)
  else
    ({ s with links := links' }, false)

/-- One state-changing operation of the allocation core. -/
inductive Op
  | claim (uid : String)
  | addLinks (codes : List String) (actor : Option String)
  | addWinner (uid : String) (username : Option String) (allowMultiple : Bool)
  | disableLink (code : String) (actor : Option String)
deriving DecidableEq

def applyOp (s : Store) : Op → Store
  | Op.claim uid => (claimStep s uid).1
  | Op.addLinks codes actor => (add_links s codes actor).1
  | Op.addWinner uid un am => (add_winner s uid un am).1
  | Op.disableLink c actor => (disable_link s c actor).1

def runOps (s : Store) : List Op → Store
  | [] => s
  | op :: ops => runOps (applyOp s op) ops

/-- Operations other than `disable_link`. -/
def noDisable : Op → Bool
  | Op.disableLink _ _ => false
  | _ => true

/-- Committed states of one sqlite `claim_one_link` call, in commit order.
The sqlite source commits the guarded UPDATE (line 184) and only then, in a
second transaction, inserts the CLAIM audit row (line 190); eligibility
failures return before `BEGIN IMMEDIATE`, and an empty pool rolls back. -/
def claimCommits (s : Store) (uid : String) : List Store :=
  if (is_winner s uid).1 = false then []
  else if (is_winner s uid).2 = false ∧ 0 < user_claim_count s uid then []
  else
    match selectNew s.links with
    | none => []
    | some l =>
      if (s.links.filter (fun x => decide (x.id = l.id ∧ x.status = Status.new))).length = 1 then
        [{ s with links := s.links.map (claimMark uid s.clock l.id), clock := s.clock + 1 },
         { s with links := s.links.map (claimMark uid s.clock l.id),
                  clock := s.clock + 1,
                  audit := s.audit ++
                    [{ actor_user_id := some uid, action := "CLAIM",
                       metadata := "link_id=" ++ toString l.id }] }]
      else
        [{ s with links := s.links.map (claimMark uid s.clock l.id), clock := s.clock + 1 }]

/-- Committed states of one sqlite `disable_link` call: the UPDATE is
committed (line 202) before the audit row is inserted and committed
(line 209). -/
def disableCommits (s : Store) (code : String) (actor : Option String) : List Store :=
  let links' := s.links.map
    (fun l => if l.code = code then { l with status := Status.disabled } else l)
  let e : AuditEntry :=
    { actor_user_id := actor, action := "DISABLE_LINK", metadata := "code=" ++ code }
  if s.links.any (fun l => decide (l.code = code)) then
    [{ s with links := links' },
     { s with links := links', audit := s.audit ++ [e] }]
  else
    [{ s with links := links' }]

/-- Committed states of one sqlite `add_links` call: the whole loop and the
audit row share a single `BEGIN` … `commit`. -/
def addLinksCommits (s : Store) (codes : List String) (actor : Option String) : List Store :=
  [(add_links s codes actor).1]

/-! ### The Notion-backed variant -/

/-- One row of the Notion winners database, as read by `_page_to_row`. -/
structure NotionRow where
  page_id : Nat
  user_id : String
  link : Option String
  redeemed : Bool
  confirmed : Bool
  added_by : Option String
deriving DecidableEq

structure NotionDB where
  rows : List NotionRow
  nextPageId : Nat
deriving DecidableEq

/-- `NotionStore.get_page_by_user`: first row whose title equals the user id. -/
def get_page_by_user (db : NotionDB) (uid : String) : Option NotionRow :=
  db.rows.find? (fun r => decide (r.user_id = uid))

/-- `NotionStore.upsert_winner` from the source: if a page for the user
already exists, update only its `Link` property to the new value and return
the existing page id; otherwise create a fresh page with the given
properties. -/
def upsert_winner (db : NotionDB) (uid : String) (link : String)
    (added_by : Option String) : NotionDB × Nat :=
  match get_page_by_user db uid with
  | some page =>
    let rows' := db.rows.map
      (fun r => if r.page_id = page.page_id then { r with link := some link } else r)
    ({ db with rows := rows' }, page.page_id)
  | none =>
    let fresh : NotionRow :=
      { page_id := db.nextPageId, user_id := uid, link := some link,
        redeemed := false, confirmed := false, added_by := added_by }
    ({ db with rows := db.rows ++ [fresh], nextPageId := db.nextPageId + 1 }, db.nextPageId)

/-! ### Helper lemmas -/

theorem find?_append_some {α : Type} {p : α → Bool} {l₁ l₂ : List α} {a : α}
    (h : l₁.find? p = some a) : (l₁ ++ l₂).find? p = some a := by
  induction l₁ with
  | nil => simp [List.find?] at h
  | cons x l ih =>
    by_cases hx : p x = true
    · rw [List.find?_cons_of_pos _ hx] at h
      rw [List.cons_append, List.find?_cons_of_pos _ hx]
      exact h
    · rw [List.find?_cons_of_neg _ hx] at h
      rw [List.cons_append, List.find?_cons_of_neg _ hx]
      exact ih h

theorem length_filter_le_map {α : Type} (f : α → α) (p : α → Bool) (l : List α)
    (hf : ∀ x, p x = true → p (f x) = true) :
    (l.filter p).length ≤ ((l.map f).filter p).length := by
  induction l with
  | nil => simp
  | cons a l ih =>
    rw [List.map_cons, List.filter_cons, List.filter_cons]
    by_cases ha : p a = true
    · rw [if_pos ha, if_pos (hf a ha)]
      exact Nat.succ_le_succ ih
    · rw [if_neg ha]
      by_cases hfa : p (f a) = true
      · rw [if_pos hfa]
        exact Nat.le_succ_of_le ih
      · rw [if_neg hfa]
        exact ih

theorem selectNew_none {ls : List GiftLink} (h : selectNew ls = none) :
    ∀ x ∈ ls, x.status ≠ Status.new := by
  induction ls with
  | nil => intro x hx; cases hx
  | cons l ls ih =>
    intro x hx
    by_cases hl : l.status = Status.new
    · exfalso
      rw [selectNew, if_pos hl] at h
      cases hsel : selectNew ls with
      | none => rw [hsel] at h; exact Option.noConfusion h
      | some b =>
        rw [hsel] at h
        have h' : (if b.id < l.id then some b else some l) = none := h
        by_cases hb : b.id < l.id
        · rw [if_pos hb] at h'; exact Option.noConfusion h'
        · rw [if_neg hb] at h'; exact Option.noConfusion h'
    · rw [selectNew, if_neg hl] at h
      rcases List.mem_cons.mp hx with rfl | hx'
      · exact hl
      · exact ih h x hx'

theorem selectNew_some {ls : List GiftLink} {b : GiftLink} (h : selectNew ls = some b) :
    b ∈ ls ∧ b.status = Status.new ∧ ∀ x ∈ ls, x.status = Status.new → b.id ≤ x.id := by
  induction ls generalizing b with
  | nil => exact absurd h (by simp [selectNew])
  | cons l ls ih =>
    rw [selectNew] at h
    by_cases hl : l.status = Status.new
    · rw [if_pos hl] at h
      cases hsel : selectNew ls with
      | none =>
        rw [hsel] at h
        obtain rfl : l = b := Option.some.inj h
        refine ⟨List.mem_cons_self _ _, hl, ?_⟩
        intro x hx hxnew
        rcases List.mem_cons.mp hx with rfl | hx'
        · exact Nat.le_refl _
        · exact absurd hxnew (selectNew_none hsel x hx')
      | some m =>
        rw [hsel] at h
        have h' : (if m.id < l.id then some m else some l) = some b := h
        obtain ⟨hmem, hmnew, hmin⟩ := ih hsel
        by_cases hcmp : m.id < l.id
        · rw [if_pos hcmp] at h'
          obtain rfl : m = b := Option.some.inj h'
          refine ⟨List.mem_cons_of_mem _ hmem, hmnew, ?_⟩
          intro x hx hxnew
          rcases List.mem_cons.mp hx with rfl | hx'
          · exact Nat.le_of_lt hcmp
          · exact hmin x hx' hxnew
        · rw [if_neg hcmp] at h'
          obtain rfl : l = b := Option.some.inj h'
          refine ⟨List.mem_cons_self _ _, hl, ?_⟩
          intro x hx hxnew
          rcases List.mem_cons.mp hx with rfl | hx'
          · exact Nat.le_refl _
          · exact Nat.le_trans (Nat.le_of_not_lt hcmp) (hmin x hx' hxnew)
    · rw [if_neg hl] at h
      obtain ⟨hmem, hbnew, hmin⟩ := ih h
      refine ⟨List.mem_cons_of_mem _ hmem, hbnew, ?_⟩
      intro x hx hxnew
      rcases List.mem_cons.mp hx with rfl | hx'
      · exact absurd hxnew hl
      · exact hmin x hx' hxnew

theorem winnerLookup_found {ws : List Winner} {uid : String} {b : Bool}
    (h : winnerLookup ws uid = (true, b)) :
    ∃ w ∈ ws, w.user_id = uid ∧ w.allow_multiple = b := by
  unfold winnerLookup at h
  cases hf : ws.find? (fun w => decide (w.user_id = uid)) with
  | none => rw [hf] at h; exact absurd (congrArg Prod.fst h) (by simp)
  | some w =>
    rw [hf] at h
    have hmem := List.mem_of_find?_eq_some hf
    have hp := List.find?_some hf
    simp only [decide_eq_true_eq] at hp
    exact ⟨w, hmem, hp, congrArg Prod.snd h⟩

theorem winnerLookup_append {ws ws' : List Winner} {uid : String} {b : Bool}
    (h : winnerLookup ws uid = (true, b)) : winnerLookup (ws ++ ws') uid = (true, b) := by
  unfold winnerLookup at h ⊢
  cases hf : ws.find? (fun w => decide (w.user_id = uid)) with
  | none => rw [hf] at h; exact absurd (congrArg Prod.fst h) (by simp)
  | some w =>
    rw [hf] at h
    rw [find?_append_some hf]
    exact h

theorem winnerLookup_not_found {ws : List Winner} {uid : String}
    (h : ∀ w ∈ ws, w.user_id ≠ uid) : winnerLookup ws uid = (false, false) := by
  unfold winnerLookup
  have : ws.find? (fun w => decide (w.user_id = uid)) = none :=
    List.find?_eq_none.mpr (by intro w hw; simpa using h w hw)
  rw [this]

/-! ### Structure of the operations -/

theorem claimStep_winners (s : Store) (uid : String) :
    (claimStep s uid).1.winners = s.winners := by
  unfold claimStep
  split
  · rfl
  split
  · rfl
  split
  · rfl
  split <;> rfl

theorem claimStep_links (s : Store) (uid : String) :
    (claimStep s uid).1.links = s.links ∨
    ∃ j, (claimStep s uid).1.links = s.links.map (claimMark uid s.clock j) := by
  unfold claimStep
  split
  · exact Or.inl rfl
  split
  · exact Or.inl rfl
  split
  · exact Or.inl rfl
  split
  · exact Or.inr ⟨_, rfl⟩
  · exact Or.inr ⟨_, rfl⟩

theorem claimStep_success_inv {s s' : Store} {uid c : String}
    (h : claimStep s uid = (s', ClaimResult.success c)) :
    (is_winner s uid).1 = true ∧
    ∃ l, selectNew s.links = some l ∧ c = l.code ∧
      s' = { s with links := s.links.map (claimMark uid s.clock l.id),
                    clock := s.clock + 1,
                    audit := s.audit ++
                      [{ actor_user_id := some uid, action := "CLAIM",
                         metadata := "link_id=" ++ toString l.id }] } := by
  unfold claimStep at h
  by_cases hw : (is_winner s uid).1 = false
  · rw [if_pos hw] at h
    exact absurd (congrArg Prod.snd h) (by simp)
  rw [if_neg hw] at h
  split at h
  · exact absurd (congrArg Prod.snd h) (by simp)
  · cases hsel : selectNew s.links with
    | none =>
      rw [hsel] at h
      exact absurd (congrArg Prod.snd h) (by simp)
    | some l =>
      rw [hsel] at h
      have h' :
          (if (s.links.filter (fun x => decide (x.id = l.id ∧ x.status = Status.new))).length = 1
           then
            ({ s with links := s.links.map (claimMark uid s.clock l.id),
                      clock := s.clock + 1,
                      audit := s.audit ++
                        [{ actor_user_id := some uid, action := "CLAIM",
                           metadata := "link_id=" ++ toString l.id }] },
             ClaimResult.success l.code)
           else
            ({ s with links := s.links.map (claimMark uid s.clock l.id),
                      clock := s.clock + 1 },
             ClaimResult.raceLost)) = (s', ClaimResult.success c) := h
      by_cases hcnt :
          (s.links.filter (fun x => decide (x.id = l.id ∧ x.status = Status.new))).length = 1
      · rw [if_pos hcnt] at h'
        have hc := congrArg Prod.snd h'
        simp only [ClaimResult.success.injEq] at hc
        refine ⟨Bool.not_eq_false _ |>.mp hw, l, rfl, hc.symm, (congrArg Prod.fst h').symm⟩
      · rw [if_neg hcnt] at h'
        exact absurd (congrArg Prod.snd h') (by simp)

theorem claimStep_fail_state {s s' : Store} {uid : String} {r : ClaimResult}
    (h : claimStep s uid = (s', r))
    (hr : r = ClaimResult.notEligible ∨ r = ClaimResult.noneAvailable) : s' = s := by
  unfold claimStep at h
  split at h
  · exact (congrArg Prod.fst h).symm
  split at h
  · exact (congrArg Prod.fst h).symm
  split at h
  · exact (congrArg Prod.fst h).symm
  split at h
  · have := congrArg Prod.snd h
    simp only at this
    rw [← this] at hr
    rcases hr with h1 | h1 <;> exact absurd h1 (by simp)
  · have := congrArg Prod.snd h
    simp only at this
    rw [← this] at hr
    rcases hr with h1 | h1 <;> exact absurd h1 (by simp)

theorem claimStep_audit_not_success {s s' : Store} {uid : String} {r : ClaimResult}
    (h : claimStep s uid = (s', r)) (hr : ∀ c, r ≠ ClaimResult.success c) :
    s'.audit = s.audit := by
  unfold claimStep at h
  split at h
  · injection h with h1 h2; rw [← h1]
  split at h
  · injection h with h1 h2; rw [← h1]
  split at h
  · injection h with h1 h2; rw [← h1]
  split at h
  · injection h with h1 h2
    exact absurd h2.symm (hr _)
  · injection h with h1 h2; rw [← h1]

theorem addLoop_spec (codes : List String) : ∀ s : Store,
    ∃ xs : List GiftLink,
      (addLoop s codes).1.links = s.links ++ xs ∧
      xs.length = (addLoop s codes).2 ∧
      (∀ l ∈ xs, l.status = Status.new ∧ l.claimed_by = none ∧ l.claimed_at = none ∧
        l.code ≠ "" ∧ (∃ raw ∈ codes, strip raw = l.code) ∧
        ¬ ∃ l₀ ∈ s.links, l₀.code = l.code) ∧
      (addLoop s codes).1.winners = s.winners ∧
      (addLoop s codes).1.audit = s.audit ∧
      (addLoop s codes).1.clock = s.clock := by
  induction codes with
  | nil =>
    intro s
    refine ⟨[], by simp [addLoop], rfl, ?_, rfl, rfl, rfl⟩
    intro l hl
    cases hl
  | cons raw rest ih =>
    intro s
    by_cases h1 : strip raw = ""
    · have heq : addLoop s (raw :: rest) = addLoop s rest := by
        rw [addLoop, if_pos h1]
      obtain ⟨xs, hlk, hlen, hall, hw, ha, hc⟩ := ih s
      rw [heq]
      refine ⟨xs, hlk, hlen, ?_, hw, ha, hc⟩
      intro l hl
      obtain ⟨p1, p2, p3, p4, ⟨r, hr, hr2⟩, p6⟩ := hall l hl
      exact ⟨p1, p2, p3, p4, ⟨r, List.mem_cons_of_mem _ hr, hr2⟩, p6⟩
    · by_cases h2 : s.links.any (fun l => decide (l.code = strip raw)) = true
      · have heq : addLoop s (raw :: rest) = addLoop s rest := by
          rw [addLoop, if_neg h1, if_pos h2]
        obtain ⟨xs, hlk, hlen, hall, hw, ha, hc⟩ := ih s
        rw [heq]
        refine ⟨xs, hlk, hlen, ?_, hw, ha, hc⟩
        intro l hl
        obtain ⟨p1, p2, p3, p4, ⟨r, hr, hr2⟩, p6⟩ := hall l hl
        exact ⟨p1, p2, p3, p4, ⟨r, List.mem_cons_of_mem _ hr, hr2⟩, p6⟩
      · have hnotin : ¬ ∃ l₀ ∈ s.links, l₀.code = strip raw := by
          intro ⟨l₀, hl₀, hl₀c⟩
          exact h2 (List.any_eq_true.mpr ⟨l₀, hl₀, by simpa using hl₀c⟩)
        have heq : addLoop s (raw :: rest) =
            ((addLoop { s with
                links := s.links ++
                  [{ id := s.nextId, code := strip raw, status := Status.new,
                     claimed_by := none, claimed_at := none }],
                nextId := s.nextId + 1 } rest).1,
             (addLoop { s with
                links := s.links ++
                  [{ id := s.nextId, code := strip raw, status := Status.new,
                     claimed_by := none, claimed_at := none }],
                nextId := s.nextId + 1 } rest).2 + 1) := by
          rw [addLoop, if_neg h1, if_neg h2]
        set x : GiftLink :=
          { id := s.nextId, code := strip raw, status := Status.new,
            claimed_by := none, claimed_at := none } with hx
        obtain ⟨xs, hlk, hlen, hall, hw, ha, hc⟩ :=
          ih { s with links := s.links ++ [x], nextId := s.nextId + 1 }
        rw [heq]
        refine ⟨x :: xs, ?_, ?_, ?_, hw, ha, hc⟩
        · rw [hlk]
          simp
        · simpa using hlen
        · intro l hl
          rcases List.mem_cons.mp hl with rfl | hl'
          · exact ⟨rfl, rfl, rfl, h1, ⟨raw, List.mem_cons_self _ _, rfl⟩, hnotin⟩
          · obtain ⟨p1, p2, p3, p4, ⟨r, hr, hr2⟩, p6⟩ := hall l hl'
            refine ⟨p1, p2, p3, p4, ⟨r, List.mem_cons_of_mem _ hr, hr2⟩, ?_⟩
            intro ⟨l₀, hl₀, hl₀c⟩
            exact p6 ⟨l₀, by simp [hl₀], hl₀c⟩

theorem add_links_fields (s : Store) (codes : List String) (actor : Option String) :
    (add_links s codes actor).1.links = (addLoop s codes).1.links ∧
    (add_links s codes actor).1.winners = (addLoop s codes).1.winners ∧
    (add_links s codes actor).1.audit = (addLoop s codes).1.audit ++
      [{ actor_user_id := actor, action := "ADD_LINK",
         metadata := "count=" ++ toString (addLoop s codes).2 }] ∧
    (add_links s codes actor).2 = (addLoop s codes).2 :=
  ⟨rfl, rfl, rfl, rfl⟩

/-! ### Stability of eligibility data along operations -/

theorem claimMark_keeps_claimed {uid v : String} {t j : Nat} (x : GiftLink)
    (hx : decide (x.claimed_by = some uid ∧ x.status = Status.claimed) = true) :
    decide ((claimMark v t j x).claimed_by = some uid ∧
      (claimMark v t j x).status = Status.claimed) = true := by
  simp only [decide_eq_true_eq] at hx ⊢
  unfold claimMark
  rw [if_neg]
  · exact hx
  · rintro ⟨-, hnew⟩
    rw [hx.2] at hnew
    exact Status.noConfusion hnew

theorem claimCount_le_claimMark (ls : List GiftLink) (uid v : String) (t j : Nat) :
    claimCount ls uid ≤ claimCount (ls.map (claimMark v t j)) uid :=
  length_filter_le_map _ _ _ (fun x hx => claimMark_keeps_claimed x hx)

theorem claimCount_append (l₁ l₂ : List GiftLink) (uid : String) :
    claimCount (l₁ ++ l₂) uid = claimCount l₁ uid + claimCount l₂ uid := by
  unfold claimCount
  rw [List.filter_append, List.length_append]

theorem claimCount_unclaimed {ls : List GiftLink} (h : ∀ l ∈ ls, l.claimed_by = none)
    (uid : String) : claimCount ls uid = 0 := by
  unfold claimCount
  rw [List.length_eq_zero]
  rw [List.filter_eq_nil_iff]
  intro l hl
  simp only [decide_eq_true_eq, not_and]
  intro hby
  rw [h l hl] at hby
  exact absurd hby (by simp)

theorem is_winner_applyOp {s : Store} {uid : String} {b : Bool}
    (h : is_winner s uid = (true, b)) (op : Op) :
    is_winner (applyOp s op) uid = (true, b) := by
  cases op with
  | claim v =>
    show winnerLookup (claimStep s v).1.winners uid = (true, b)
    rw [claimStep_winners]
    exact h
  | addLinks codes actor =>
    show winnerLookup (add_links s codes actor).1.winners uid = (true, b)
    rw [(add_links_fields s codes actor).2.1, (addLoop_spec codes s).choose_spec.2.2.2.1]
    exact h
  | addWinner v un am =>
    show winnerLookup (add_winner s v un am).1.winners uid = (true, b)
    unfold add_winner
    by_cases hd : s.winners.any (fun w => decide (w.user_id = v)) = true
    · rw [if_pos hd]
      exact h
    · rw [if_neg hd]
      exact winnerLookup_append h
  | disableLink c actor =>
    show winnerLookup (disable_link s c actor).1.winners uid = (true, b)
    unfold disable_link
    by_cases hd : s.links.any (fun l => decide (l.code = c)) = true
    · rw [if_pos hd]
      exact h
    · rw [if_neg hd]
      exact h

theorem is_winner_runOps {s : Store} {uid : String} {b : Bool}
    (h : is_winner s uid = (true, b)) (ops : List Op) :
    is_winner (runOps s ops) uid = (true, b) := by
  induction ops generalizing s with
  | nil => exact h
  | cons op ops ih => exact ih (is_winner_applyOp h op)

theorem claimCount_mono_applyOp (s : Store) (uid : String) {op : Op}
    (hop : noDisable op = true) :
    user_claim_count s uid ≤ user_claim_count (applyOp s op) uid := by
  cases op with
  | claim v =>
    show claimCount s.links uid ≤ claimCount (claimStep s v).1.links uid
    rcases claimStep_links s v with heq | ⟨j, heq⟩
    · rw [heq]
    · rw [heq]
      exact claimCount_le_claimMark s.links uid v s.clock j
  | addLinks codes actor =>
    show claimCount s.links uid ≤ claimCount (add_links s codes actor).1.links uid
    obtain ⟨xs, hlk, -, hall, -⟩ := addLoop_spec codes s
    rw [(add_links_fields s codes actor).1, hlk, claimCount_append,
      claimCount_unclaimed (fun l hl => (hall l hl).2.1) uid]
    exact Nat.le_add_right _ _
  | addWinner v un am =>
    show claimCount s.links uid ≤ claimCount (add_winner s v un am).1.links uid
    unfold add_winner
    by_cases hd : s.winners.any (fun w => decide (w.user_id = v)) = true
    · rw [if_pos hd]
    · rw [if_neg hd]
  | disableLink c actor =>
    exact absurd hop (by simp [noDisable])

theorem claimCount_mono_runOps (s : Store) (uid : String) (ops : List Op)
    (hops : ∀ op ∈ ops, noDisable op = true) :
    user_claim_count s uid ≤ user_claim_count (runOps s ops) uid := by
  induction ops generalizing s with
  | nil => exact Nat.le_refl _
  | cons op ops ih =>
    exact Nat.le_trans
      (claimCount_mono_applyOp s uid (hops op (List.mem_cons_self _ _)))
      (ih (applyOp s op) (fun o ho => hops o (List.mem_cons_of_mem _ ho)))

theorem claimCount_pos_of_success {s s' : Store} {uid c : String}
    (h : claimStep s uid = (s', ClaimResult.success c)) :
    0 < user_claim_count s' uid := by
  obtain ⟨-, l, hsel, -, hs'⟩ := claimStep_success_inv h
  obtain ⟨hmem, hnew, -⟩ := selectNew_some hsel
  have hmark : claimMark uid s.clock l.id l =
      { l with status := Status.claimed, claimed_by := some uid,
               claimed_at := some s.clock } := by
    unfold claimMark
    rw [if_pos ⟨rfl, hnew⟩]
  have hmm : claimMark uid s.clock l.id l ∈ s.links.map (claimMark uid s.clock l.id) :=
    List.mem_map_of_mem _ hmem
  have hp : decide ((claimMark uid s.clock l.id l).claimed_by = some uid ∧
      (claimMark uid s.clock l.id l).status = Status.claimed) = true := by
    rw [hmark]
    simp
  show 0 < claimCount s'.links uid
  rw [hs']
  exact List.length_pos.mpr (List.ne_nil_of_mem (List.mem_filter.mpr ⟨hmm, hp⟩))

theorem selectNew_eq_none {ls : List GiftLink} (h : ∀ x ∈ ls, x.status ≠ Status.new) :
    selectNew ls = none := by
  induction ls with
  | nil => rfl
  | cons l ls ih =>
    rw [selectNew, if_neg (h l (List.mem_cons_self _ _))]
    exact ih (fun x hx => h x (List.mem_cons_of_mem _ hx))

/-! ### Concrete stores used as evaluation inputs -/

def sPool : Store :=
  { links := [{ id := 0, code := "A1", status := Status.new, claimed_by := none, claimed_at := none },
              { id := 1, code := "A2", status := Status.new, claimed_by := none, claimed_at := none }],
    winners := [{ user_id := "u1", username := none, allow_multiple := false }],
    audit := [], nextId := 2, clock := 0 }

def sNotElig : Store :=
  { links := [{ id := 0, code := "A1", status := Status.new, claimed_by := none, claimed_at := none }],
    winners := [], audit := [], nextId := 1, clock := 0 }

def sNoCodes : Store :=
  { links := [],
    winners := [{ user_id := "u1", username := none, allow_multiple := false }],
    audit := [], nextId := 0, clock := 0 }

def sHasA1 : Store :=
  { links := [{ id := 0, code := "A1", status := Status.new, claimed_by := none, claimed_at := none }],
    winners := [], audit := [], nextId := 1, clock := 0 }

def sClaimReady : Store :=
  { links := [{ id := 0, code := "A1", status := Status.new, claimed_by := none, claimed_at := none }],
    winners := [{ user_id := "u1", username := none, allow_multiple := false }],
    audit := [], nextId := 1, clock := 0 }

def sClaimed : Store :=
  { links := [{ id := 0, code := "A1", status := Status.claimed,
                claimed_by := some "u1", claimed_at := some 0 }],
    winners := [{ user_id := "u1", username := none, allow_multiple := false }],
    audit := [], nextId := 1, clock := 1 }

def dbNotion : NotionDB :=
  { rows := [{ page_id := 0, user_id := "7", link := some "LINK-A",
               redeemed := false, confirmed := false, added_by := none }],
    nextPageId := 1 }

/-! ### Claim C2 -/

/-- Claim C2: for every registered winner whose `allow_multiple` flag is
false, after one successful claim every subsequent claim call by that same
user — along any further sequence of claim, add_codes and add_winner
operations — takes the eligibility branch and fails (NotEligible), no matter
how many codes of status `new` remain available, and leaves the store
unchanged.  (`disable_code` is excluded from the continuation: disabling the
user's claimed code would reset their claimed count.) -/
theorem claim_after_success_notEligible {s s' : Store} {uid c : String}
    (hw : is_winner s uid = (true, false))
    (hs : claimStep s uid = (s', ClaimResult.success c))
    (ops : List Op) (hops : ∀ op ∈ ops, noDisable op = true) :
    claimStep (runOps s' ops) uid = (runOps s' ops, ClaimResult.notEligible) := by
  have hs1 : applyOp s (Op.claim uid) = s' := by
    show (claimStep s uid).1 = s'
    rw [hs]
  have hw1 : is_winner s' uid = (true, false) := by
    rw [← hs1]
    exact is_winner_applyOp hw (Op.claim uid)
  have hw2 : is_winner (runOps s' ops) uid = (true, false) := is_winner_runOps hw1 ops
  have hcnt : 0 < user_claim_count (runOps s' ops) uid :=
    Nat.lt_of_lt_of_le (claimCount_pos_of_success hs) (claimCount_mono_runOps s' uid ops hops)
  unfold claimStep
  rw [if_neg (by rw [hw2]; simp), if_pos ⟨by rw [hw2], hcnt⟩]

/-- Claim C2 witness: in a pool of two fresh codes with the single-claim
winner u1, after u1 successfully claims, a further claim by u1 is refused. -/
theorem claim_after_success_notEligible_witness :
    claimStep (runOps (claimStep sPool "u1").1 [Op.claim "u1"]) "u1" =
      (runOps (claimStep sPool "u1").1 [Op.claim "u1"], ClaimResult.notEligible) :=
  @claim_after_success_notEligible sPool ((claimStep sPool "u1").1) "u1" "A1"
    (by decide) (by decide) [Op.claim "u1"] (by decide)

/-! ### Claim C9 -/

/-- Claim C9: whenever a claim call succeeds, the returned code is carried by
a link of status `new` whose id is least among all status-`new` links at
selection time (oldest first, FIFO). -/
theorem claim_returns_oldest_new_code {s s' : Store} {uid c : String}
    (h : claimStep s uid = (s', ClaimResult.success c)) :
    ∃ l ∈ s.links, l.code = c ∧ l.status = Status.new ∧
      ∀ x ∈ s.links, x.status = Status.new → l.id ≤ x.id := by
  obtain ⟨-, l, hsel, hc, -⟩ := claimStep_success_inv h
  obtain ⟨hmem, hnew, hmin⟩ := selectNew_some hsel
  exact ⟨l, hmem, hc.symm, hnew, hmin⟩

/-- Claim C9 witness: in the two-code pool the claim returns "A1", the
status-`new` link of least id. -/
theorem claim_returns_oldest_new_code_witness :
    ∃ l ∈ sPool.links, l.code = "A1" ∧ l.status = Status.new ∧
      ∀ x ∈ sPool.links, x.status = Status.new → l.id ≤ x.id :=
  @claim_returns_oldest_new_code sPool ((claimStep sPool "u1").1) "u1" "A1" (by decide)

/-! ### Claim C4 -/

/-- Claim C4 counterexample: the two failure outcomes are produced by
distinct internal branches, but `claim_one_link` returns the same value
`None` to the caller in both situations, so the caller cannot tell an
ineligible user apart from an exhausted pool from the result. -/
theorem claim_failures_collapse_to_none :
    (claimStep sNotElig "u1").2 = ClaimResult.notEligible ∧
    (claimStep sNoCodes "u1").2 = ClaimResult.noneAvailable ∧
    (claim_one_link sNotElig "u1").2 = none ∧
    (claim_one_link sNoCodes "u1").2 = none := by decide

/-- Claim C4 amended: internally the code distinguishes the two failure
causes — an unregistered or exhausted user fails the eligibility guards
(NotEligible) while an eligible user facing zero status-`new` codes hits the
empty selection (NoneAvailable) — but `claim_one_link` collapses every
non-success branch to the single return value `None`, so the two outcomes
are not distinct results for the caller (the user-facing reply is one shared
message). -/
theorem claim_failure_modes (s : Store) (uid : String) :
    ((∀ w ∈ s.winners, w.user_id ≠ uid) → claimStep s uid = (s, ClaimResult.notEligible)) ∧
    ((is_winner s uid).2 = false → 0 < user_claim_count s uid →
      claimStep s uid = (s, ClaimResult.notEligible)) ∧
    ((is_winner s uid).1 = true →
      ¬((is_winner s uid).2 = false ∧ 0 < user_claim_count s uid) →
      (∀ l ∈ s.links, l.status ≠ Status.new) →
      claimStep s uid = (s, ClaimResult.noneAvailable)) ∧
    (∀ r s', claimStep s uid = (s', r) →
      (claim_one_link s uid).2 =
        match r with
        | ClaimResult.success c => some c
        | _ => none) := by
  refine ⟨?_, ?_, ?_, ?_⟩
  · intro h
    have hw : is_winner s uid = (false, false) := winnerLookup_not_found h
    unfold claimStep
    rw [if_pos (show (is_winner s uid).1 = false by rw [hw])]
  · intro h2 hcnt
    unfold claimStep
    by_cases h1 : (is_winner s uid).1 = false
    · rw [if_pos h1]
    · rw [if_neg h1, if_pos ⟨h2, hcnt⟩]
  · intro h1 h2 hall
    unfold claimStep
    rw [if_neg (by rw [h1]; simp), if_neg h2, selectNew_eq_none hall]
  · intro r s' h
    unfold claim_one_link
    rw [h]
    cases r <;> rfl

/-- Claim C4 witness: concrete stores exercising the NotEligible branch (no
registered winner) and the NoneAvailable branch (eligible winner, empty
pool). -/
theorem claim_failure_modes_witness :
    claimStep sNotElig "u1" = (sNotElig, ClaimResult.notEligible) ∧
    claimStep sNoCodes "u1" = (sNoCodes, ClaimResult.noneAvailable) :=
  ⟨(claim_failure_modes sNotElig "u1").1 (by decide),
   (claim_failure_modes sNoCodes "u1").2.2.1 (by decide) (by decide) (by decide)⟩

theorem add_winner_links (s : Store) (v : String) (un : Option String) (am : Bool) :
    (add_winner s v un am).1.links = s.links := by
  unfold add_winner
  split <;> rfl

theorem disable_link_links (s : Store) (c : String) (actor : Option String) :
    (disable_link s c actor).1.links =
      s.links.map (fun l => if l.code = c then { l with status := Status.disabled } else l) := by
  unfold disable_link
  split <;> rfl

/-! ### Claim C5 -/

/-- Claim C5 counterexample: in the Notion variant, registering an
already-present winner again is not a no-op failure.  `upsert_winner`
overwrites the stored link of the existing record with the new value and
returns the existing page id (success), so the second registration does
update a stored field of the existing winner record. -/
theorem notion_reregistration_overwrites_link :
    (upsert_winner dbNotion "7" "LINK-B" (some "9")).1.rows.map (fun r => r.link) =
      [some "LINK-B"] ∧
    (upsert_winner dbNotion "7" "LINK-B" (some "9")).1 ≠ dbNotion ∧
    (upsert_winner dbNotion "7" "LINK-B" (some "9")).2 = 0 := by decide

/-- Claim C5 amended: in the SQL variants, `add_winner` for a `user_id`
already present in the winners collection returns false and leaves the whole
store unchanged (in particular the stored `allow_multiple` and every other
field keep their values); in the Notion variant the registration is an
upsert that overwrites the stored link of the existing record. -/
theorem add_winner_duplicate_noop {s : Store} {uid : String}
    (h : ∃ w ∈ s.winners, w.user_id = uid) (un : Option String) (am : Bool) :
    add_winner s uid un am = (s, false) := by
  obtain ⟨w, hw, hwc⟩ := h
  unfold add_winner
  rw [if_pos (List.any_eq_true.mpr ⟨w, hw, by simpa using hwc⟩)]

/-- Claim C5 witness: re-registering u1 with the opposite allow_multiple flag
fails and changes nothing. -/
theorem add_winner_duplicate_noop_witness :
    add_winner sPool "u1" none true = (sPool, false) :=
  @add_winner_duplicate_noop sPool "u1" (by decide) none true

/-! ### Claim C6 -/

def opsDisableClaimed : List Op :=
  [Op.addLinks ["A1"] (some "adm"), Op.addWinner "u1" none false,
   Op.claim "u1", Op.disableLink "A1" (some "adm")]

/-- Claim C6 counterexample: from the empty store, add code A1, register u1,
let u1 claim A1, then disable A1.  `disable_link` sets `status = disabled`
but leaves `claimed_by` and `claimed_at` set, so the reachable final state
violates the claimed iff (both fields set while status is not `claimed`). -/
theorem claimed_iff_fields_fails_after_disable :
    ¬ ∀ l ∈ (runOps emptyStore opsDisableClaimed).links,
        (l.status = Status.claimed ↔
          l.claimed_by.isSome = true ∧ l.claimed_at.isSome = true) := by
  decide

/-- Fields/status invariant that the code actually maintains: a `claimed`
link has both `claimed_by` and `claimed_at` set, and a `new` link has both
unset; nothing is said about `disabled` links, which keep whatever claim
fields they had when disabled. -/
def statusFieldsInv (s : Store) : Prop :=
  ∀ l ∈ s.links,
    (l.status = Status.claimed → l.claimed_by.isSome = true ∧ l.claimed_at.isSome = true) ∧
    (l.status = Status.new → l.claimed_by = none ∧ l.claimed_at = none)

/-- Claim C6 amended: in every reachable state, `status = claimed` implies
`claimed_by` and `claimed_at` are both set, and `status = new` implies both
are unset; the converse direction of the claimed iff fails, because
`disable_code` on a claimed code keeps both fields while setting
`status = disabled`.  The invariant holds in the empty store and is preserved
by every operation. -/
theorem status_fields_invariant_preserved :
    statusFieldsInv emptyStore ∧
    ∀ s op, statusFieldsInv s → statusFieldsInv (applyOp s op) := by
  constructor
  · intro l hl
    cases hl
  · intro s op hInv
    cases op with
    | claim uid =>
      intro y hy
      have hy' : y ∈ (claimStep s uid).1.links := hy
      rcases claimStep_links s uid with heq | ⟨j, heq⟩
      · rw [heq] at hy'
        exact hInv y hy'
      · rw [heq] at hy'
        obtain ⟨x, hx, rfl⟩ := List.mem_map.mp hy'
        unfold claimMark
        by_cases hg : x.id = j ∧ x.status = Status.new
        · rw [if_pos hg]
          exact ⟨fun _ => ⟨rfl, rfl⟩, fun hn => absurd hn (by simp)⟩
        · rw [if_neg hg]
          exact hInv x hx
    | addLinks codes actor =>
      intro y hy
      have hy' : y ∈ (add_links s codes actor).1.links := hy
      obtain ⟨xs, hlk, -, hall, -⟩ := addLoop_spec codes s
      rw [(add_links_fields s codes actor).1, hlk] at hy'
      rcases List.mem_append.mp hy' with h | h
      · exact hInv y h
      · obtain ⟨p1, p2, p3, -⟩ := hall y h
        exact ⟨fun hc => absurd (p1.symm.trans hc) (by simp), fun _ => ⟨p2, p3⟩⟩
    | addWinner v un am =>
      intro y hy
      have hy' : y ∈ (add_winner s v un am).1.links := hy
      rw [add_winner_links] at hy'
      exact hInv y hy'
    | disableLink c actor =>
      intro y hy
      have hy' : y ∈ (disable_link s c actor).1.links := hy
      rw [disable_link_links] at hy'
      obtain ⟨x, hx, rfl⟩ := List.mem_map.mp hy'
      by_cases hg : x.code = c
      · rw [if_pos hg]
        exact ⟨fun hc => absurd hc (by simp), fun hn => absurd hn (by simp)⟩
      · rw [if_neg hg]
        exact hInv x hx

/-- Claim C6 witness: the invariant survives a concrete operation applied to
the empty store. -/
theorem status_fields_invariant_preserved_witness :
    statusFieldsInv (applyOp emptyStore (Op.addLinks ["A1"] none)) :=
  status_fields_invariant_preserved.2 emptyStore (Op.addLinks ["A1"] none)
    status_fields_invariant_preserved.1

/-! ### Claim C7 -/

/-- Claim C7 counterexample: an `add_codes` call whose entries are all
duplicates inserts zero rows yet still appends one ADD_LINK audit entry
(recording count=0), where the claim requires zero entries for a no-op
call. -/
theorem add_codes_all_duplicates_still_audits :
    (add_links sHasA1 ["A1"] (some "adm")).2 = 0 ∧
    (add_links sHasA1 ["A1"] (some "adm")).1.audit =
      [{ actor_user_id := some "adm", action := "ADD_LINK", metadata := "count=0" }] := by
  decide

/-- Claim C7 amended: each successful claim appends exactly one CLAIM entry
(actor = the claimant, metadata = the claimed row id) and each failed claim
appends none; `add_codes` appends exactly one ADD_LINK entry on every call —
including an all-duplicate (zero-insert) call — recording the acting admin
and the count actually added; each successful `add_winner` appends exactly
one ADD_WINNER entry (its actor column records the new winner's id) and a
duplicate registration appends none; each successful `disable_code` appends
exactly one DISABLE_LINK entry with the acting admin and the code, and a
call on a nonexistent code appends none. -/
theorem audit_entries_per_operation (s : Store) (uid code : String)
    (un : Option String) (am : Bool) (actor : Option String) (codes : List String) :
    (∀ s' c, claimStep s uid = (s', ClaimResult.success c) →
      ∃ i : Nat, s'.audit = s.audit ++
        [{ actor_user_id := some uid, action := "CLAIM",
           metadata := "link_id=" ++ toString i }]) ∧
    (∀ s' r, claimStep s uid = (s', r) → (∀ c, r ≠ ClaimResult.success c) →
      s'.audit = s.audit) ∧
    ((add_links s codes actor).1.audit = s.audit ++
      [{ actor_user_id := actor, action := "ADD_LINK",
         metadata := "count=" ++ toString (add_links s codes actor).2 }]) ∧
    (∀ s', add_winner s uid un am = (s', true) → s'.audit = s.audit ++
      [{ actor_user_id := some uid, action := "ADD_WINNER",
         metadata := "username=" ++ toString un ++ ",allow_multiple=" ++ toString am }]) ∧
    (∀ s', add_winner s uid un am = (s', false) → s'.audit = s.audit) ∧
    (∀ s', disable_link s code actor = (s', true) → s'.audit = s.audit ++
      [{ actor_user_id := actor, action := "DISABLE_LINK",
         metadata := "code=" ++ code }]) ∧
    (∀ s', disable_link s code actor = (s', false) → s'.audit = s.audit) := by
  refine ⟨?_, ?_, ?_, ?_, ?_, ?_, ?_⟩
  · intro s' c h
    obtain ⟨-, l, -, -, hs'⟩ := claimStep_success_inv h
    exact ⟨l.id, by rw [hs']⟩
  · intro s' r h hr
    exact claimStep_audit_not_success h hr
  · obtain ⟨-, -, ha, -⟩ := add_links_fields s codes actor
    rw [ha, (addLoop_spec codes s).choose_spec.2.2.2.2.1,
      (add_links_fields s codes actor).2.2.2]
  · intro s' h
    unfold add_winner at h
    by_cases hd : s.winners.any (fun w => decide (w.user_id = uid)) = true
    · rw [if_pos hd] at h
      exact absurd (congrArg Prod.snd h) (by simp)
    · rw [if_neg hd] at h
      injection h with h1 h2
      rw [← h1]
  · intro s' h
    unfold add_winner at h
    by_cases hd : s.winners.any (fun w => decide (w.user_id = uid)) = true
    · rw [if_pos hd] at h
      injection h with h1 h2
      rw [← h1]
    · rw [if_neg hd] at h
      exact absurd (congrArg Prod.snd h) (by simp)
  · intro s' h
    unfold disable_link at h
    by_cases hd : s.links.any (fun l => decide (l.code = code)) = true
    · rw [if_pos hd] at h
      injection h with h1 h2
      rw [← h1]
    · rw [if_neg hd] at h
      exact absurd (congrArg Prod.snd h) (by simp)
  · intro s' h
    unfold disable_link at h
    by_cases hd : s.links.any (fun l => decide (l.code = code)) = true
    · rw [if_pos hd] at h
      exact absurd (congrArg Prod.snd h) (by simp)
    · rw [if_neg hd] at h
      injection h with h1 h2
      rw [← h1]

/-- Claim C7 witness: one successful claim appends exactly the CLAIM entry
for row 0, and disabling a nonexistent code appends nothing. -/
theorem audit_entries_per_operation_witness :
    (∃ i : Nat, (claimStep sClaimReady "u1").1.audit = sClaimReady.audit ++
      [{ actor_user_id := some "u1", action := "CLAIM",
         metadata := "link_id=" ++ toString i }]) ∧
    (disable_link sNoCodes "ZZ" (some "adm")).1.audit = sNoCodes.audit :=
  ⟨(audit_entries_per_operation sClaimReady "u1" "ZZ" none false (some "adm") []).1
      (claimStep sClaimReady "u1").1 "A1" (by decide),
   (audit_entries_per_operation sNoCodes "u1" "ZZ" none false (some "adm") []).2.2.2.2.2.2
      (disable_link sNoCodes "ZZ" (some "adm")).1 (by decide)⟩

/-! ### Claim C3 -/

theorem claimStep_success_guards {s s' : Store} {uid c : String}
    (h : claimStep s uid = (s', ClaimResult.success c)) :
    ¬(is_winner s uid).1 = false ∧
    ¬((is_winner s uid).2 = false ∧ 0 < user_claim_count s uid) ∧
    ∃ l, selectNew s.links = some l ∧
      (s.links.filter (fun x => decide (x.id = l.id ∧ x.status = Status.new))).length = 1 := by
  unfold claimStep at h
  split at h
  · exact absurd (congrArg Prod.snd h) (by simp)
  split at h
  · exact absurd (congrArg Prod.snd h) (by simp)
  split at h
  · exact absurd (congrArg Prod.snd h) (by simp)
  split at h
  · rename_i hw hg x l hsel hcnt
    exact ⟨hw, hg, l, hsel, hcnt⟩
  · exact absurd (congrArg Prod.snd h) (by simp)

/-- Claim C3 counterexample: the sqlite variant commits the claim's UPDATE
first (line 184) and inserts the CLAIM audit row in a second transaction
(line 190), so among the committed states of one successful claim there is an
observable state in which a code is already claimed while the audit log holds
no CLAIM entry — the log is behind the state it describes. -/
theorem sqlite_claim_commit_lags_audit :
    ∃ t ∈ claimCommits sClaimReady "u1",
      (∃ l ∈ t.links, l.status = Status.claimed) ∧ ∀ e ∈ t.audit, e.action ≠ "CLAIM" := by
  decide

/-- Claim C3 amended: the postgres variant writes the audit row in the same
transaction as the state change for all four operations (modelled by the
atomic `claimStep` / `add_links` / `add_winner` / `disable_link` steps); the
sqlite variant does so for `add_codes`, but its successful `claim` and
`disable_code` commit the state change in a first transaction and append the
audit row in a second one, so exactly one intermediate committed state per
such call shows the new state without its audit entry. -/
theorem sqlite_commit_granularity (s : Store) (uid code : String)
    (actor : Option String) (codes : List String) :
    (∀ s' c, claimStep s uid = (s', ClaimResult.success c) →
      claimCommits s uid = [{ s' with audit := s.audit }, s']) ∧
    (∀ s', disable_link s code actor = (s', true) →
      disableCommits s code actor = [{ s' with audit := s.audit }, s']) ∧
    addLinksCommits s codes actor = [(add_links s codes actor).1] := by
  refine ⟨?_, ?_, rfl⟩
  · intro s' c h
    obtain ⟨hw, hg, l, hsel, hcnt⟩ := claimStep_success_guards h
    obtain ⟨-, l', hsel', -, hs'⟩ := claimStep_success_inv h
    rw [hsel] at hsel'
    obtain rfl : l = l' := Option.some.inj hsel'
    unfold claimCommits
    rw [if_neg hw, if_neg hg]
    split
    · rename_i heq
      rw [hsel] at heq
      exact Option.noConfusion heq
    · rename_i l'' heq
      rw [hsel] at heq
      obtain rfl : l = l'' := Option.some.inj heq
      rw [if_pos hcnt, hs']
  · intro s' h
    unfold disable_link at h
    unfold disableCommits
    by_cases hd : s.links.any (fun l => decide (l.code = code)) = true
    · rw [if_pos hd] at h
      rw [if_pos hd]
      injection h with h1 h2
      rw [← h1]
    · rw [if_neg hd] at h
      exact absurd (congrArg Prod.snd h) (by simp)

/-- Claim C3 witness: on concrete stores, the successful claim and disable
each produce exactly the two commits, the first lacking the audit entry. -/
theorem sqlite_commit_granularity_witness :
    claimCommits sClaimReady "u1" =
      [{ (claimStep sClaimReady "u1").1 with audit := sClaimReady.audit },
       (claimStep sClaimReady "u1").1] ∧
    disableCommits sHasA1 "A1" (some "adm") =
      [{ (disable_link sHasA1 "A1" (some "adm")).1 with audit := sHasA1.audit },
       (disable_link sHasA1 "A1" (some "adm")).1] :=
  ⟨(sqlite_commit_granularity sClaimReady "u1" "A1" none []).1
      (claimStep sClaimReady "u1").1 "A1" (by decide),
   (sqlite_commit_granularity sHasA1 "u1" "A1" (some "adm") []).2.1
      (disable_link sHasA1 "A1" (some "adm")).1 (by decide)⟩

/-! ### Claim C8 -/

theorem claimMark_code (uid : String) (t j : Nat) (x : GiftLink) :
    (claimMark uid t j x).code = x.code := by
  unfold claimMark
  split <;> rfl

theorem claimMark_id (uid : String) (t j : Nat) (x : GiftLink) :
    (claimMark uid t j x).id = x.id := by
  unfold claimMark
  split <;> rfl

/-- Some row carries code `c` and every row carrying it is disabled. -/
def codeDisabled (c : String) (s : Store) : Prop :=
  (∃ l ∈ s.links, l.code = c) ∧ ∀ l ∈ s.links, l.code = c → l.status = Status.disabled

theorem codeDisabled_applyOp {c : String} {s : Store} (h : codeDisabled c s) (op : Op) :
    codeDisabled c (applyOp s op) := by
  obtain ⟨⟨l₀, hl₀, hl₀c⟩, hall⟩ := h
  cases op with
  | claim uid =>
    rcases claimStep_links s uid with heq | ⟨j, heq⟩
    · exact ⟨⟨l₀, by show l₀ ∈ (claimStep s uid).1.links; rw [heq]; exact hl₀, hl₀c⟩,
        by show ∀ l ∈ (claimStep s uid).1.links, _; rw [heq]; exact hall⟩
    · constructor
      · refine ⟨claimMark uid s.clock j l₀, ?_, ?_⟩
        · show claimMark uid s.clock j l₀ ∈ (claimStep s uid).1.links
          rw [heq]
          exact List.mem_map_of_mem _ hl₀
        · rw [claimMark_code]
          exact hl₀c
      · intro y hy hyc
        have hy' : y ∈ (claimStep s uid).1.links := hy
        rw [heq] at hy'
        obtain ⟨x, hx, rfl⟩ := List.mem_map.mp hy'
        have hxc : x.code = c := by rw [← claimMark_code uid s.clock j x]; exact hyc
        have hxd := hall x hx hxc
        unfold claimMark
        rw [if_neg (by rintro ⟨-, hnew⟩; rw [hxd] at hnew; exact Status.noConfusion hnew)]
        exact hxd
  | addLinks codes actor =>
    obtain ⟨xs, hlk, -, hall2, -⟩ := addLoop_spec codes s
    have hlinks : (add_links s codes actor).1.links = s.links ++ xs := by
      rw [(add_links_fields s codes actor).1, hlk]
    constructor
    · have hmem : l₀ ∈ (add_links s codes actor).1.links := by
        rw [hlinks]
        exact List.mem_append_left _ hl₀
      exact ⟨l₀, hmem, hl₀c⟩
    · intro y hy hyc
      have hy' : y ∈ (add_links s codes actor).1.links := hy
      rw [hlinks] at hy'
      rcases List.mem_append.mp hy' with hmem | hmem
      · exact hall y hmem hyc
      · obtain ⟨-, -, -, -, -, hnotin⟩ := hall2 y hmem
        exact absurd ⟨l₀, hl₀, hl₀c.trans hyc.symm⟩ hnotin
  | addWinner v un am =>
    have hlinks := add_winner_links s v un am
    exact ⟨⟨l₀, by show l₀ ∈ (add_winner s v un am).1.links; rw [hlinks]; exact hl₀, hl₀c⟩,
      by show ∀ l ∈ (add_winner s v un am).1.links, _; rw [hlinks]; exact hall⟩
  | disableLink c2 actor =>
    constructor
    · refine ⟨if l₀.code = c2 then { l₀ with status := Status.disabled } else l₀, ?_, ?_⟩
      · show _ ∈ (disable_link s c2 actor).1.links
        rw [disable_link_links]
        exact List.mem_map_of_mem _ hl₀
      · by_cases hg : l₀.code = c2
        · rw [if_pos hg]
          exact hl₀c
        · rw [if_neg hg]
          exact hl₀c
    · intro y hy hyc
      have hy' : y ∈ (disable_link s c2 actor).1.links := hy
      rw [disable_link_links] at hy'
      obtain ⟨x, hx, rfl⟩ := List.mem_map.mp hy'
      by_cases hg : x.code = c2
      · rw [if_pos hg]
      · rw [if_neg hg] at hyc ⊢
        exact hall x hx hyc

theorem codeDisabled_runOps {c : String} {s : Store} (h : codeDisabled c s) (ops : List Op) :
    codeDisabled c (runOps s ops) := by
  induction ops generalizing s with
  | nil => exact h
  | cons op ops ih => exact ih (codeDisabled_applyOp h op)

theorem codeDisabled_after_disable {s : Store} {c : String} (actor : Option String)
    (hpresent : ∃ l ∈ s.links, l.code = c) :
    (disable_link s c actor).2 = true ∧ codeDisabled c (disable_link s c actor).1 := by
  obtain ⟨l₀, hl₀, hl₀c⟩ := hpresent
  have hany : s.links.any (fun l => decide (l.code = c)) = true :=
    List.any_eq_true.mpr ⟨l₀, hl₀, by simpa using hl₀c⟩
  refine ⟨?_, ?_, ?_⟩
  · unfold disable_link
    rw [if_pos hany]
  · refine ⟨{ l₀ with status := Status.disabled }, ?_, hl₀c⟩
    rw [disable_link_links]
    have himg : (fun l => if l.code = c then { l with status := Status.disabled } else l) l₀ =
        { l₀ with status := Status.disabled } := by
      show (if l₀.code = c then { l₀ with status := Status.disabled } else l₀) =
        { l₀ with status := Status.disabled }
      rw [if_pos hl₀c]
    rw [← himg]
    exact List.mem_map_of_mem _ hl₀
  · intro y hy hyc
    have hy' : y ∈ (disable_link s c actor).1.links := hy
    rw [disable_link_links] at hy'
    obtain ⟨x, hx, rfl⟩ := List.mem_map.mp hy'
    by_cases hg : x.code = c
    · rw [if_pos hg]
    · rw [if_neg hg] at hyc
      exact absurd hyc hg

theorem claim_not_disabled_code {s t : Store} {c uid c' : String}
    (hd : codeDisabled c s) (h : claimStep s uid = (t, ClaimResult.success c')) : c' ≠ c := by
  obtain ⟨-, l, hsel, hc, -⟩ := claimStep_success_inv h
  obtain ⟨hmem, hnew, -⟩ := selectNew_some hsel
  intro hcc
  have hdis : l.status = Status.disabled := hd.2 l hmem (hc.symm.trans hcc)
  rw [hnew] at hdis
  exact Status.noConfusion hdis

/-- Claim C8: for a code string present in the store (whatever its status,
claimed included), `disable_code` returns true; from then on, along any
sequence of further operations, every row carrying that code stays disabled
and no claim call ever returns that code string; and in general no operation
ever moves a row whose status is not `new` back to `new`. -/
theorem disable_code_is_permanent {s : Store} {c : String} (actor : Option String)
    (hpresent : ∃ l ∈ s.links, l.code = c) :
    (disable_link s c actor).2 = true ∧
    (∀ ops : List Op, ∀ l ∈ (runOps (disable_link s c actor).1 ops).links,
      l.code = c → l.status = Status.disabled) ∧
    (∀ ops : List Op, ∀ uid c' t,
      claimStep (runOps (disable_link s c actor).1 ops) uid = (t, ClaimResult.success c') →
      c' ≠ c) ∧
    (∀ op : Op, ∀ l ∈ s.links, l.status ≠ Status.new →
      ∃ l' ∈ (applyOp s op).links, l'.id = l.id ∧ l'.code = l.code ∧
        l'.status ≠ Status.new) := by
  obtain ⟨hok, hcd⟩ := codeDisabled_after_disable actor hpresent
  refine ⟨hok, ?_, ?_, ?_⟩
  · intro ops l hl hlc
    exact (codeDisabled_runOps hcd ops).2 l hl hlc
  · intro ops uid c' t h
    exact claim_not_disabled_code (codeDisabled_runOps hcd ops) h
  · intro op l hl hst
    cases op with
    | claim uid =>
      rcases claimStep_links s uid with heq | ⟨j, heq⟩
      · exact ⟨l, by show l ∈ (claimStep s uid).1.links; rw [heq]; exact hl, rfl, rfl, hst⟩
      · refine ⟨claimMark uid s.clock j l, ?_, claimMark_id uid s.clock j l,
          claimMark_code uid s.clock j l, ?_⟩
        · show claimMark uid s.clock j l ∈ (claimStep s uid).1.links
          rw [heq]
          exact List.mem_map_of_mem _ hl
        · unfold claimMark
          rw [if_neg (by rintro ⟨-, hnew⟩; exact hst hnew)]
          exact hst
    | addLinks codes actor2 =>
      obtain ⟨xs, hlk, -⟩ := addLoop_spec codes s
      refine ⟨l, ?_, rfl, rfl, hst⟩
      show l ∈ (add_links s codes actor2).1.links
      rw [(add_links_fields s codes actor2).1, hlk]
      exact List.mem_append_left _ hl
    | addWinner v un am =>
      refine ⟨l, ?_, rfl, rfl, hst⟩
      show l ∈ (add_winner s v un am).1.links
      rw [add_winner_links]
      exact hl
    | disableLink c2 actor2 =>
      refine ⟨if l.code = c2 then { l with status := Status.disabled } else l, ?_, ?_, ?_, ?_⟩
      · show _ ∈ (disable_link s c2 actor2).1.links
        rw [disable_link_links]
        exact List.mem_map_of_mem _ hl
      · by_cases hg : l.code = c2
        · rw [if_pos hg]
        · rw [if_neg hg]
      · by_cases hg : l.code = c2
        · rw [if_pos hg]
        · rw [if_neg hg]
      · by_cases hg : l.code = c2
        · rw [if_pos hg]
          simp
        · rw [if_neg hg]
          exact hst

/-- Claim C8 witness: disabling the already-claimed code A1 succeeds, and
after a further add_codes operation every row carrying A1 is still
disabled. -/
theorem disable_code_is_permanent_witness :
    (disable_link sClaimed "A1" (some "adm")).2 = true ∧
    ∀ l ∈ (runOps (disable_link sClaimed "A1" (some "adm")).1
        [Op.addLinks ["A2"] none]).links,
      l.code = "A1" → l.status = Status.disabled :=
  ⟨(@disable_code_is_permanent sClaimed "A1" (some "adm") (by decide)).1,
   (@disable_code_is_permanent sClaimed "A1" (some "adm") (by decide)).2.1
     [Op.addLinks ["A2"] none]⟩

/-! ### Claim C10 -/

/-- The store after `addLoop` inserts one fresh code `c`. -/
def insertFresh (s : Store) (c : String) : Store :=
  { s with
    links := s.links ++
      [{ id := s.nextId, code := c, status := Status.new,
         claimed_by := none, claimed_at := none }],
    nextId := s.nextId + 1 }

theorem addLoop_covers (codes : List String) : ∀ s : Store, ∀ raw ∈ codes, strip raw ≠ "" →
    ∃ l ∈ (addLoop s codes).1.links, l.code = strip raw := by
  induction codes with
  | nil =>
    intro s raw h
    cases h
  | cons r rest ih =>
    intro s raw hmem hne
    by_cases h1 : strip r = ""
    · have heq : addLoop s (r :: rest) = addLoop s rest := by
        rw [addLoop, if_pos h1]
      rw [heq]
      rcases List.mem_cons.mp hmem with rfl | hmem'
      · exact absurd h1 hne
      · exact ih s raw hmem' hne
    · by_cases h2 : s.links.any (fun l => decide (l.code = strip r)) = true
      · have heq : addLoop s (r :: rest) = addLoop s rest := by
          rw [addLoop, if_neg h1, if_pos h2]
        rw [heq]
        rcases List.mem_cons.mp hmem with rfl | hmem'
        · obtain ⟨l₀, hl₀, hl₀c⟩ := List.any_eq_true.mp h2
          obtain ⟨xs, hlk, -⟩ := addLoop_spec rest s
          rw [hlk]
          exact ⟨l₀, List.mem_append_left _ hl₀, by simpa using hl₀c⟩
        · exact ih s raw hmem' hne
      · have heq : addLoop s (r :: rest) =
            ((addLoop (insertFresh s (strip r)) rest).1,
             (addLoop (insertFresh s (strip r)) rest).2 + 1) := by
          rw [addLoop, if_neg h1, if_neg h2]
          rfl
        rw [heq]
        rcases List.mem_cons.mp hmem with rfl | hmem'
        · obtain ⟨xs, hlk, -⟩ := addLoop_spec rest (insertFresh s (strip raw))
          rw [hlk]
          refine ⟨{ id := s.nextId, code := strip raw, status := Status.new,
                    claimed_by := none, claimed_at := none }, ?_, rfl⟩
          exact List.mem_append_left _ (List.mem_append_right _ (List.mem_singleton.mpr rfl))
        · exact ih _ raw hmem' hne

theorem addLoop_nodup (codes : List String) : ∀ s : Store,
    (codesOf s).Nodup → (codesOf (addLoop s codes).1).Nodup := by
  induction codes with
  | nil =>
    intro s h
    exact h
  | cons r rest ih =>
    intro s h
    by_cases h1 : strip r = ""
    · have heq : addLoop s (r :: rest) = addLoop s rest := by
        rw [addLoop, if_pos h1]
      rw [heq]
      exact ih s h
    · by_cases h2 : s.links.any (fun l => decide (l.code = strip r)) = true
      · have heq : addLoop s (r :: rest) = addLoop s rest := by
          rw [addLoop, if_neg h1, if_pos h2]
        rw [heq]
        exact ih s h
      · have heq : addLoop s (r :: rest) =
            ((addLoop (insertFresh s (strip r)) rest).1,
             (addLoop (insertFresh s (strip r)) rest).2 + 1) := by
          rw [addLoop, if_neg h1, if_neg h2]
          rfl
        rw [heq]
        refine ih (insertFresh s (strip r)) ?_
        unfold codesOf insertFresh
        rw [List.map_append, List.nodup_append]
        refine ⟨h, by simp, ?_⟩
        intro a ha hb
        have hb' : a = strip r := by simpa using hb
        subst hb'
        obtain ⟨l₀, hl₀, hl₀c⟩ := List.mem_map.mp ha
        exact h2 (List.any_eq_true.mpr ⟨l₀, hl₀, by simpa using hl₀c⟩)

/-- Claim C10: `add_codes` strips whitespace from each raw entry, drops
entries that become empty, silently skips entries whose stripped code already
exists (in the store or earlier in the same batch), inserts the rest as fresh
status-`new` rows, and returns exactly the number of rows actually inserted;
in particular the resulting code column stays duplicate-free, so a second
call with an overlapping list inserts only the net-new codes. -/
theorem add_codes_trim_dedup_count (s : Store) (codes : List String) (actor : Option String) :
    ((add_links s codes actor).1.links.length =
      s.links.length + (add_links s codes actor).2) ∧
    (∀ c, c ∈ codesOf (add_links s codes actor).1 ↔
      c ∈ codesOf s ∨ (c ≠ "" ∧ ∃ raw ∈ codes, strip raw = c)) ∧
    ((codesOf s).Nodup → (codesOf (add_links s codes actor).1).Nodup) ∧
    (∀ l ∈ (add_links s codes actor).1.links,
      l ∈ s.links ∨ (l.status = Status.new ∧ l.claimed_by = none ∧
        l.claimed_at = none ∧ l.code ∉ codesOf s)) := by
  obtain ⟨xs, hlk, hlen, hall, -⟩ := addLoop_spec codes s
  have hlinks : (add_links s codes actor).1.links = s.links ++ xs := by
    rw [(add_links_fields s codes actor).1, hlk]
  have hcnt : (add_links s codes actor).2 = (addLoop s codes).2 := rfl
  refine ⟨?_, ?_, ?_, ?_⟩
  · rw [hlinks, List.length_append, hlen, hcnt]
  · intro c
    constructor
    · intro hc
      unfold codesOf at hc
      rw [hlinks, List.map_append] at hc
      rcases List.mem_append.mp hc with h | h
      · exact Or.inl h
      · obtain ⟨l, hl, rfl⟩ := List.mem_map.mp h
        obtain ⟨-, -, -, hne, hsrc, -⟩ := hall l hl
        exact Or.inr ⟨hne, hsrc⟩
    · intro hc
      rcases hc with h | ⟨hne, raw, hraw, hrs⟩
      · unfold codesOf
        rw [hlinks, List.map_append]
        exact List.mem_append_left _ h
      · obtain ⟨l, hl, hlc⟩ := addLoop_covers codes s raw hraw (by rw [hrs]; exact hne)
        unfold codesOf
        rw [(add_links_fields s codes actor).1]
        exact List.mem_map.mpr ⟨l, hl, hlc.trans hrs⟩
  · intro hnd
    have hres := addLoop_nodup codes s hnd
    unfold codesOf at hres ⊢
    rw [(add_links_fields s codes actor).1]
    exact hres
  · intro l hl
    rw [hlinks] at hl
    rcases List.mem_append.mp hl with h | h
    · exact Or.inl h
    · obtain ⟨p1, p2, p3, -, -, hnotin⟩ := hall l h
      refine Or.inr ⟨p1, p2, p3, ?_⟩
      intro hmem
      obtain ⟨l₀, hl₀, hl₀c⟩ := List.mem_map.mp hmem
      exact hnotin ⟨l₀, hl₀, hl₀c⟩

/-- Claim C10 witness: adding `["A1", " A3 ", "", "A3"]` to a store that
already holds A1 keeps the code column duplicate-free and ends with A3
present (inserted once, whitespace stripped). -/
theorem add_codes_trim_dedup_count_witness :
    (codesOf (add_links sHasA1 ["A1", " A3 ", "", "A3"] (some "adm")).1).Nodup ∧
    "A3" ∈ codesOf (add_links sHasA1 ["A1", " A3 ", "", "A3"] (some "adm")).1 :=
  ⟨(add_codes_trim_dedup_count sHasA1 ["A1", " A3 ", "", "A3"] (some "adm")).2.2.1 (by decide),
   ((add_codes_trim_dedup_count sHasA1 ["A1", " A3 ", "", "A3"] (some "adm")).2.1 "A3").mpr
     (Or.inr ⟨by decide, " A3 ", by decide, by decide⟩)⟩

end Giveaway
